import Mathlib

/-!
# Verification of the TextCraft-AI document-encryption subsystem

Shallow embedding of the encryption/recovery code of the repository
(src/durga.py, src/passward.py, src/AI.py) and proofs about it.

Modelling conventions:
* byte strings are `List Nat` (each entry a byte value);
* the AES block primitive and the PBKDF2 key-derivation function are
  abstract parameters, collected in the `Prims` structure; theorems that
  need them assume the block cipher's defining laws as hypotheses;
* `os.urandom` outputs (salts, IVs) and dialog inputs are explicit
  arguments of the modelled functions;
* Python exceptions are `Option`/sum results; a function that can raise
  returns `none` on the raising path.
-/

namespace TextCraft

/-- Abstract cryptographic primitives the Python code calls into:
`aesEnc k b` / `aesDec k b` are the AES block encryption/decryption of a
16-byte block `b` under key `k` (from `cryptography`'s `algorithms.AES`),
and `kdf password salt` is `generate_key`'s PBKDF2-HMAC-SHA256 output
(32 bytes) on the UTF-8 bytes of the password. -/
structure Prims where
  aesEnc : List Nat → List Nat → List Nat
  aesDec : List Nat → List Nat → List Nat
  kdf : List Nat → List Nat → List Nat

/-- Fuel-indexed CFB128 encryption; the fuel is a structural-recursion
device only (see `cfbEnc_fuel_irrel`): each 16-byte segment of the
plaintext is xored with the block encryption of the previous ciphertext
segment (initially the IV); the final partial segment uses the leading
keystream bytes. -/
def cfbEncF (E : List Nat → List Nat → List Nat) (key : List Nat) :
    Nat → List Nat → List Nat → List Nat
  | 0, _, _ => []
  | n + 1, prev, data =>
    if data = [] then []
    else
      let c := List.zipWith Nat.xor (data.take 16) (E key prev)
      c ++ cfbEncF E key n c (data.drop 16)

/-- CFB128 encryption (`modes.CFB`), `encryptor.update(data) + finalize()`. -/
def cfbEnc (E : List Nat → List Nat → List Nat)
    (key prev data : List Nat) : List Nat :=
  cfbEncF E key (data.length + 1) prev data

/-- Fuel-indexed CFB128 decryption; fuel is a structural-recursion device. -/
def cfbDecF (E : List Nat → List Nat → List Nat) (key : List Nat) :
    Nat → List Nat → List Nat → List Nat
  | 0, _, _ => []
  | n + 1, prev, data =>
    if data = [] then []
    else
      let p := List.zipWith Nat.xor (data.take 16) (E key prev)
      p ++ cfbDecF E key n (data.take 16) (data.drop 16)

/-- CFB128 decryption: xor each ciphertext segment with the block encryption
of the previous ciphertext segment (initially the IV).  Uses only the
encryption direction of the block cipher and never fails. -/
def cfbDec (E : List Nat → List Nat → List Nat)
    (key prev data : List Nat) : List Nat :=
  cfbDecF E key (data.length + 1) prev data

/-- CBC encryption (`modes.CBC`) over data whose length is a multiple of 16:
each plaintext block is xored with the previous ciphertext block (initially
the IV) and then block-encrypted. -/
def cbcEnc (E : List Nat → List Nat → List Nat) (key : List Nat) :
    List Nat → List Nat → List Nat := fun prev data =>
  if h : data = [] then []
  else
    let c := E key (List.zipWith Nat.xor (data.take 16) prev)
    c ++ cbcEnc E key c (data.drop 16)
  termination_by prev data => data.length
  decreasing_by
    simp only [List.length_drop]
    have := List.length_pos.mpr h
    omega

/-- CBC decryption: block-decrypt each ciphertext block and xor with the
previous ciphertext block (initially the IV). -/
def cbcDec (D : List Nat → List Nat → List Nat) (key : List Nat) :
    List Nat → List Nat → List Nat := fun prev data =>
  if h : data = [] then []
  else
    let p := List.zipWith Nat.xor (D key (data.take 16)) prev
    p ++ cbcDec D key (data.take 16) (data.drop 16)
  termination_by prev data => data.length
  decreasing_by
    simp only [List.length_drop]
    have := List.length_pos.mpr h
    omega

/-- `PKCS7(128).padder().update`: emit the whole 16-byte blocks of
buffer ++ data, keep the remainder as the new buffer. -/
def padderUpdate (buf data : List Nat) : List Nat × List Nat :=
  let b := buf ++ data
  let fin := b.length / 16 * 16
  (b.drop fin, b.take fin)

/-- `PKCS7(128).padder().finalize`: append `16 - len(buffer)` bytes each
equal to `16 - len(buffer)` (a full padding block when the buffer is empty). -/
def padderFinalize (buf : List Nat) : List Nat :=
  buf ++ List.replicate (16 - buf.length) (16 - buf.length)

/-- `PKCS7(128).unpadder().update`: emit whole blocks but always hold back
the last whole block (it may be the padding block); `max(· , 0)` is Nat
subtraction. -/
def unpadderUpdate (buf data : List Nat) : List Nat × List Nat :=
  let b := buf ++ data
  let fin := (b.length / 16 - 1) * 16
  (b.drop fin, b.take fin)

/-- `PKCS7(128).unpadder().finalize`: the buffer must be exactly one block;
its last byte `p` must satisfy `1 ≤ p ≤ 16` and the last `p` bytes must all
equal `p`; on success the first `16 - p` bytes are returned, otherwise a
`ValueError` is raised (`none`). -/
def unpadderFinalize (buf : List Nat) : Option (List Nat) :=
  if buf.length = 16 then
    let p := buf.getLast?.getD 0
    if 1 ≤ p ∧ p ≤ 16 ∧ (buf.drop (16 - p)).all (fun x => x = p) then
      some (buf.take (16 - p))
    else none
  else none

/-- The PKCS7 padding of `data` at block size 16 (what
`padder().update(data) + padder().finalize()` on a single object emits). -/
def pkcs7Pad (data : List Nat) : List Nat :=
  data ++ List.replicate (16 - data.length % 16) (16 - data.length % 16)

/-- `unpadder().update(dp) + unpadder().finalize()` on a single object. -/
def unpadSeq (dp : List Nat) : Option (List Nat) :=
  let st := unpadderUpdate [] dp
  (unpadderFinalize st.1).map (fun t => st.2 ++ t)

/-- Automaton transition for a lead byte. -/
def u8start (b : Nat) : Option (Nat × Nat × Nat) :=
  if b ≤ 127 then some (0, 0, 0)
  else if 194 ≤ b ∧ b ≤ 223 then some (1, 128, 191)
  else if b = 224 then some (2, 160, 191)
  else if 225 ≤ b ∧ b ≤ 236 then some (2, 128, 191)
  else if b = 237 then some (2, 128, 159)
  else if 238 ≤ b ∧ b ≤ 239 then some (2, 128, 191)
  else if b = 240 then some (3, 144, 191)
  else if 241 ≤ b ∧ b ≤ 243 then some (3, 128, 191)
  else if b = 244 then some (3, 128, 143)
  else none

/-- One automaton step on a byte. -/
def u8step : Option (Nat × Nat × Nat) → Nat → Option (Nat × Nat × Nat)
  | none, _ => none
  | some (0, _, _), b => u8start b
  | some (n + 1, lo, hi), b =>
      if lo ≤ b ∧ b ≤ hi then some (n, 128, 191) else none

/-- `bytes(l).decode('utf-8')` succeeds iff `utf8Valid l = true`. -/
def utf8Valid (l : List Nat) : Bool :=
  match l.foldl u8step (some (0, 0, 0)) with
  | some (0, _, _) => true
  | _ => false

/-- durga.py `encrypt_data`: `salt` and `iv` are the `os.urandom(16)` draws
made inside the call, passed explicitly; `password` is the UTF-8 byte
string of the password argument (`password.encode()` inside
`generate_key`).  Returns `salt + iv + ciphertext` with the data
AES-CFB-encrypted under `generate_key(password, salt)`. -/
def durga_encrypt_data (p : Prims) (data password salt iv : List Nat) :
    List Nat :=
  salt ++ iv ++ cfbEnc p.aesEnc (p.kdf password salt) iv data

/-- durga.py `decrypt_data`: split the input into salt (`[:16]`), IV
(`[16:32]`) and ciphertext (`[32:]`), re-derive the key and CFB-decrypt.
Total: there is no failure path, whatever the password. -/
def durga_decrypt_data (p : Prims) (encrypted_data password : List Nat) :
    List Nat :=
  cfbDec p.aesEnc (p.kdf password (encrypted_data.take 16))
    ((encrypted_data.drop 16).take 16) (encrypted_data.drop 32)

/-- AI.py `encrypt_data` — textually identical to durga.py's. -/
def ai_encrypt_data (p : Prims) (data password salt iv : List Nat) :
    List Nat :=
  salt ++ iv ++ cfbEnc p.aesEnc (p.kdf password salt) iv data

/-- AI.py `decrypt_data` — textually identical to durga.py's. -/
def ai_decrypt_data (p : Prims) (encrypted_data password : List Nat) :
    List Nat :=
  cfbDec p.aesEnc (p.kdf password (encrypted_data.take 16))
    ((encrypted_data.drop 16).take 16) (encrypted_data.drop 32)

/-- Big-endian 4-byte encoding (`recovery_size.to_bytes(4, 'big')`). -/
def be32 (n : Nat) : List Nat :=
  [n / 16777216 % 256, n / 65536 % 256, n / 256 % 256, n % 256]

/-- `int.from_bytes(f.read(4), 'big')`: big-endian value of the first four
bytes. -/
def readBe32 (l : List Nat) : Nat :=
  (l.take 4).foldl (fun acc b => acc * 256 + b) 0

/-- UTF-8 bytes of the JSON fragment `\x7b"recovery_key": ` (the start of
`json.dumps` output for the recovery dict, key quotes included). -/
def jsonKeyPart : List Nat :=
  [123, 34, 114, 101, 99, 111, 118, 101, 114, 121, 95, 107, 101, 121, 34,
   58, 32]

/-- UTF-8 bytes of the JSON fragment `, "created_at": `. -/
def jsonMid : List Nat :=
  [44, 32, 34, 99, 114, 101, 97, 116, 101, 100, 95, 97, 116, 34, 58, 32]

/-- JSON value encoding of `self.recovery_key`: a quoted string, or the
four bytes of `null` when the attribute is `None`. -/
def jsonValue : Option (List Nat) → List Nat
  | some rk => 34 :: (rk ++ [34])
  | none => [110, 117, 108, 108]

/-- Bytes of `json.dumps(\x7b"recovery_key": rk, "created_at": t\x7d)`;
`created` stands for the decimal rendering of `time.time()`. -/
def recoveryInfoBytes (rk? : Option (List Nat)) (created : List Nat) :
    List Nat :=
  jsonKeyPart ++ jsonValue rk? ++ jsonMid ++ created ++ [125]

/-- durga.py `save_encrypted_file` (cryptographic body; dialogs elided):
the serialized container is
`[recovery_info_size (4 bytes BE)][recovery_info JSON][encrypted_data]`,
with the recovery key inside the *plaintext* JSON header. -/
def durga_save_encrypted_file (p : Prims) (text password : List Nat)
    (rk? : Option (List Nat)) (created salt iv : List Nat) : List Nat :=
  be32 (recoveryInfoBytes rk? created).length ++
    recoveryInfoBytes rk? created ++
    durga_encrypt_data p text password salt iv

/-- durga.py `open_encrypted_file` header parsing: read the 4-byte size,
that many bytes of recovery info, and the rest as encrypted data. -/
def durga_parse (fileBytes : List Nat) : List Nat × List Nat :=
  ((fileBytes.drop 4).take (readBe32 fileBytes),
   (fileBytes.drop 4).drop (readBe32 fileBytes))

/-- Does `m` lead the list (element-wise equality on the first `m.length`
entries)? -/
def leadsWith : List Nat → List Nat → Bool
  | [], _ => true
  | _ :: _, [] => false
  | a :: m, b :: l => a == b && leadsWith m l

/-- The remainder of the list after the first occurrence of the marker
`m` (`[]` when `m` does not occur). -/
def afterMarker (m : List Nat) : List Nat → List Nat
  | [] => []
  | a :: rest =>
    if leadsWith m (a :: rest) then (a :: rest).drop m.length
    else afterMarker m rest

/-- UTF-8 bytes of `"recovery_key": "` — the text preceding the recovery
key value in the serialized JSON (equal to `jsonKeyPart.drop 1 ++ [34]`). -/
def rkMarker : List Nat :=
  [34, 114, 101, 99, 111, 118, 101, 114, 121, 95, 107, 101, 121, 34, 58,
   32, 34]

/-- Model of `json.loads(recovery_info)["recovery_key"]` for the JSON
texts produced by `save_encrypted_file` with a string-valued recovery key:
the bytes between the quotes following the `"recovery_key": ` marker. -/
def extractRecoveryKey (info : List Nat) : List Nat :=
  (afterMarker rkMarker info).takeWhile (fun b => b ≠ 34)

/-- Outcome of durga.py `open_encrypted_file`: which dialog path ends the
call.  `okPassword`/`okRecovery` carry the text placed in the editor;
`recoveryFailed` is the "Invalid recovery key." dialog; `cancelled` covers
the silent user-cancel exits; `error` the outer exception dialog. -/
inductive DOpen where
  | okPassword (text : List Nat)
  | okRecovery (text : List Nat)
  | recoveryFailed
  | cancelled
  | error
deriving DecidableEq

/-- durga.py `open_encrypted_file` (dialog inputs passed explicitly):
parse the header, try the entered password; on UTF-8 decode failure
optionally ask for the recovery key and compare it (as a string) with the
`recovery_key` field of the plaintext header; on a match and a confirmed
new password, decrypt again — the source decrypts with `password`, the
variable still holding the *failed* password, not with anything derived
from the recovery key — and place the decoded text in the editor.  A
decode failure there propagates to the outer `except` (`error`). -/
def durga_open_encrypted_file (p : Prims) (fileBytes password : List Nat)
    (tryRecovery recoveryOk : Bool) (recoveryInput : List Nat)
    (newPasswordOk : Bool) (newPassword : List Nat) : DOpen :=
  let stored := extractRecoveryKey (durga_parse fileBytes).1
  let d1 := durga_decrypt_data p (durga_parse fileBytes).2 password
  if utf8Valid d1 then DOpen.okPassword d1
  else if tryRecovery then
    if recoveryOk ∧ recoveryInput ≠ [] ∧ recoveryInput = stored then
      if newPasswordOk ∧ newPassword ≠ [] then
        let d2 := durga_decrypt_data p (durga_parse fileBytes).2 password
        if utf8Valid d2 then DOpen.okRecovery d2 else DOpen.error
      else DOpen.cancelled
    else DOpen.recoveryFailed
  else DOpen.cancelled

/-- The long-lived editor object's credential state (durga.py / AI.py
`self.current_password`, `self.recovery_key`) and its text buffer. -/
structure TextEditorApp where
  current_password : Option (List Nat)
  recovery_key : Option (List Nat)
  text : List Nat

/-- durga.py `set_password`: on a confirmed, non-empty dialog input, store
the password and a fresh `secrets.token_hex(16)` recovery key on the
long-lived editor object. -/
def durga_set_password (app : TextEditorApp) (ok : Bool)
    (password freshRecovery : List Nat) : TextEditorApp :=
  if ok ∧ password ≠ [] then
    { app with current_password := some password,
               recovery_key := some freshRecovery }
  else app

/-- durga.py `save_encrypted_file` as an operation on the editor object:
it takes no credential argument; it reads `self.current_password`
(aborting with a warning dialog when unset, `none`), `self.recovery_key`
and the text buffer from the long-lived state. -/
def durga_save_op (p : Prims) (app : TextEditorApp)
    (created salt iv : List Nat) : Option (List Nat) :=
  match app.current_password with
  | none => none
  | some pw =>
      some (durga_save_encrypted_file p app.text pw app.recovery_key
        created salt iv)

/-- passward.py `encrypt_data`: PKCS7-pad (one padder object) then
AES-CBC-encrypt; returns `(encrypted, iv)` with `iv` the `os.urandom(16)`
draw made inside the call, passed explicitly. -/
def passward_encrypt_data (E : List Nat → List Nat → List Nat)
    (data key iv : List Nat) : List Nat × List Nat :=
  (cbcEnc E key iv
    ((padderUpdate [] data).2 ++ padderFinalize (padderUpdate [] data).1),
   iv)

/-- passward.py `decrypt_data`: AES-CBC-decrypt then PKCS7-unpad (one
unpadder object); `none` models the `ValueError` raised on bad padding. -/
def passward_decrypt_data (D : List Nat → List Nat → List Nat)
    (encrypted key iv : List Nat) : Option (List Nat) :=
  unpadSeq (cbcDec D key iv encrypted)

/-- The result of passward.py `FileEncryptorApp.encrypt_file`: the fields
written to the JSON file (`salt`, `iv`, `encrypted_data`, `recovery.salt`,
`recovery.encrypted_key`), the recovery key displayed once to the user,
and — as an explicit observation — the IV handed to the wrap cipher
(`modes.CBC(iv)` on source line 84: the *content* IV; the file stores no
separate wrap IV). -/
structure PSeal where
  salt : List Nat
  iv : List Nat
  encrypted_data : List Nat
  recovery_salt : List Nat
  recovery_encrypted_key : List Nat
  wrap_iv : List Nat
  recovery_key : List Nat
deriving DecidableEq

/-- passward.py `encrypt_file` (cryptographic body; file dialogs elided).
`salt` and `recovery_salt` are the two independent `os.urandom(16)` draws,
`recovery_key` the `generate_recovery_key()` output (as bytes), `iv` the
draw made inside `encrypt_data`.  Source line 86 builds the padded key
with two *fresh* padder objects — `update` on one (which emits all 32 key
bytes) and `finalize` on another (which emits a full padding block) —
which happens to coincide with the correct PKCS7 padding of a 32-byte
key. -/
def passward_encrypt_file (p : Prims) (data password : List Nat)
    (salt recovery_key recovery_salt iv : List Nat) : PSeal :=
  let key := p.kdf password salt
  let enc := passward_encrypt_data p.aesEnc data key iv
  let recovery_key_bytes := p.kdf recovery_key recovery_salt
  let padded_key := (padderUpdate [] key).2 ++ padderFinalize []
  { salt := salt, iv := enc.2, encrypted_data := enc.1,
    recovery_salt := recovery_salt,
    recovery_encrypted_key := cbcEnc p.aesEnc recovery_key_bytes enc.2
      padded_key,
    wrap_iv := enc.2, recovery_key := recovery_key }

/-- passward.py `decrypt_file`, "Password" branch: derive the key from the
entered password and the stored salt, CBC-decrypt and unpad; any exception
becomes the "Wrong password or corrupted file." dialog (`none`). -/
def passward_decrypt_file_password (p : Prims) (s : PSeal)
    (password : List Nat) : Option (List Nat) :=
  passward_decrypt_data p.aesDec s.encrypted_data (p.kdf password s.salt)
    s.iv

/-- passward.py `decrypt_file`, "Recovery Key" branch (source lines
137-149): derive the recovery key bytes, CBC-decrypt the wrapped key under
the stored *content* IV, then unpad with
`PKCS7(128).unpadder().update(padded_key) +
PKCS7(128).unpadder().finalize()` — two *fresh* unpadder objects, so
`finalize` runs on an empty buffer.  Were a key recovered, it would be
used to `decrypt_data` the content; `none` models the `except` branch
("Invalid recovery key or file corrupted."). -/
def passward_decrypt_file_recovery (p : Prims) (s : PSeal)
    (recovery_key : List Nat) : Option (List Nat) :=
  let recovery_key_bytes := p.kdf recovery_key s.recovery_salt
  let padded_key :=
    cbcDec p.aesDec recovery_key_bytes s.iv s.recovery_encrypted_key
  match unpadderFinalize [] with
  | none => none
  | some tail =>
      passward_decrypt_data p.aesDec s.encrypted_data
        ((unpadderUpdate [] padded_key).2 ++ tail) s.iv

/-- The PBKDF2 chain-and-xor loop: apply the PRF `n` more times, xoring
each `U_j` into the accumulator. -/
def pbkdf2Loop (prf : List Nat → List Nat → List Nat) (pw : List Nat) :
    Nat → List Nat → List Nat → List Nat
  | 0, _, acc => acc
  | n + 1, u, acc =>
      pbkdf2Loop prf pw n (prf pw u) (List.zipWith Nat.xor acc (prf pw u))

/-- PBKDF2 block `T_i = U_1 xor U_2 xor ... xor U_c` with
`U_1 = PRF(pw, salt ++ INT_32_BE(i))` and `U_j = PRF(pw, U_(j-1))`. -/
def pbkdf2T (prf : List Nat → List Nat → List Nat)
    (pw salt : List Nat) (c i : Nat) : List Nat :=
  pbkdf2Loop prf pw (c - 1) (prf pw (salt ++ be32 i))
    (prf pw (salt ++ be32 i))

/-- PBKDF2 with a 32-byte PRF: the first `dkLen` bytes of
`T_1 ++ T_2 ++ ...`. -/
def pbkdf2 (prf : List Nat → List Nat → List Nat)
    (pw salt : List Nat) (c dkLen : Nat) : List Nat :=
  (((List.range ((dkLen + 31) / 32)).map
      (fun i => pbkdf2T prf pw salt c (i + 1))).flatten).take dkLen

/-- durga.py / AI.py `generate_key`:
`PBKDF2HMAC(SHA256, length=32, salt, iterations=100000)` on the UTF-8
bytes of the password. -/
def durga_generate_key (prf : List Nat → List Nat → List Nat)
    (password salt : List Nat) : List Nat :=
  pbkdf2 prf password salt 100000 32

/-- passward.py `generate_key`:
`PBKDF2HMAC(SHA256, length=32, salt, iterations=390000)`. -/
def passward_generate_key (prf : List Nat → List Nat → List Nat)
    (password salt : List Nat) : List Nat :=
  pbkdf2 prf password salt 390000 32

/-- Toy primitives: the keystream block is the first 16 key bytes, block
decryption is the identity, and the KDF maps the password bytes `[112]`
(`"p"`) to the zero key and anything else to a key starting with `1`. -/
def cPrims : Prims where
  aesEnc := fun key _ => key.take 16
  aesDec := fun _ b => b
  kdf := fun pw _ =>
    if pw = [112] then List.replicate 32 0 else 1 :: List.replicate 31 0

/-- Like `cPrims`, but a wrong password derives a key starting with `128`,
so a wrong-password CFB decryption of ASCII text starts with an invalid
UTF-8 byte. -/
def cPrims9 : Prims where
  aesEnc := fun key _ => key.take 16
  aesDec := fun _ b => b
  kdf := fun pw _ =>
    if pw = [112] then List.replicate 32 0 else 128 :: List.replicate 31 0

/-- The identity block cipher with the all-zero KDF: satisfies every law
hypothesis of the abstract theorems; used by witnesses. -/
def idPrims : Prims where
  aesEnc := fun _ b => b
  aesDec := fun _ b => b
  kdf := fun _ _ => List.replicate 32 0

/-- A concrete durga.py container: the text `"A"` (`[65]`) sealed with
password `"p"` (`[112]`) under `cPrims`, recovery key `"aa"`, `created_at`
rendered as `"1"`, zero salt and IV.  Its single ciphertext byte is the
final byte of the container. -/
def sealedAP : List Nat :=
  durga_save_encrypted_file cPrims [65] [112] (some [97, 97]) [49]
    (List.replicate 16 0) (List.replicate 16 0)

/-- The constant PRF used by the C7 witness. -/
def constPrf : List Nat → List Nat → List Nat :=
  fun _ _ => List.replicate 32 0

/-- The fuel of `cfbEncF` is irrelevant as long as it exceeds the data
length; any such fuel gives the same result. -/
theorem cfbEncF_fuel_irrel (E : List Nat → List Nat → List Nat)
    (key : List Nat) :
    ∀ f f' prev data, data.length < f → data.length < f' →
      cfbEncF E key f prev data = cfbEncF E key f' prev data := by
  intro f
  induction f with
  | zero => intro f' prev data hf _; omega
  | succ n ih =>
    intro f' prev data hf hf'
    cases f' with
    | zero => omega
    | succ m =>
      cases data with
      | nil => simp [cfbEncF]
      | cons a t =>
        simp only [cfbEncF, if_neg (List.cons_ne_nil a t)]
        congr 1
        apply ih
        · simp only [List.length_cons] at hf
          simp only [List.length_drop, List.length_cons]
          omega
        · simp only [List.length_cons] at hf'
          simp only [List.length_drop, List.length_cons]
          omega

/-- One-step unfolding of `cfbEnc` in its natural (fuel-free) form. -/
theorem cfbEnc_eq (E : List Nat → List Nat → List Nat)
    (key prev data : List Nat) :
    cfbEnc E key prev data =
      if data = [] then []
      else
        (List.zipWith Nat.xor (data.take 16) (E key prev)) ++
          cfbEnc E key (List.zipWith Nat.xor (data.take 16) (E key prev))
            (data.drop 16) := by
  cases data with
  | nil => rfl
  | cons a t =>
    have hfuel : cfbEncF E key (t.length + 1)
        (List.zipWith Nat.xor ((a :: t).take 16) (E key prev))
        ((a :: t).drop 16)
        = cfbEnc E key (List.zipWith Nat.xor ((a :: t).take 16) (E key prev))
            ((a :: t).drop 16) := by
      apply cfbEncF_fuel_irrel
      · simp only [List.length_drop, List.length_cons]; omega
      · omega
    calc cfbEnc E key prev (a :: t)
        = (List.zipWith Nat.xor ((a :: t).take 16) (E key prev)) ++
            cfbEncF E key (t.length + 1)
              (List.zipWith Nat.xor ((a :: t).take 16) (E key prev))
              ((a :: t).drop 16) := rfl
      _ = _ := by rw [hfuel, if_neg (List.cons_ne_nil a t)]

/-- Fuel irrelevance for `cfbDecF`. -/
theorem cfbDecF_fuel_irrel (E : List Nat → List Nat → List Nat)
    (key : List Nat) :
    ∀ f f' prev data, data.length < f → data.length < f' →
      cfbDecF E key f prev data = cfbDecF E key f' prev data := by
  intro f
  induction f with
  | zero => intro f' prev data hf _; omega
  | succ n ih =>
    intro f' prev data hf hf'
    cases f' with
    | zero => omega
    | succ m =>
      cases data with
      | nil => simp [cfbDecF]
      | cons a t =>
        simp only [cfbDecF, if_neg (List.cons_ne_nil a t)]
        congr 1
        apply ih
        · simp only [List.length_cons] at hf
          simp only [List.length_drop, List.length_cons]
          omega
        · simp only [List.length_cons] at hf'
          simp only [List.length_drop, List.length_cons]
          omega

/-- One-step unfolding of `cfbDec` in its natural (fuel-free) form. -/
theorem cfbDec_eq (E : List Nat → List Nat → List Nat)
    (key prev data : List Nat) :
    cfbDec E key prev data =
      if data = [] then []
      else
        (List.zipWith Nat.xor (data.take 16) (E key prev)) ++
          cfbDec E key (data.take 16) (data.drop 16) := by
  cases data with
  | nil => rfl
  | cons a t =>
    have hfuel : cfbDecF E key (t.length + 1) ((a :: t).take 16)
        ((a :: t).drop 16)
        = cfbDec E key ((a :: t).take 16) ((a :: t).drop 16) := by
      apply cfbDecF_fuel_irrel
      · simp only [List.length_drop, List.length_cons]; omega
      · omega
    calc cfbDec E key prev (a :: t)
        = (List.zipWith Nat.xor ((a :: t).take 16) (E key prev)) ++
            cfbDecF E key (t.length + 1) ((a :: t).take 16)
              ((a :: t).drop 16) := rfl
      _ = _ := by rw [hfuel, if_neg (List.cons_ne_nil a t)]

/-- Xoring with the same keystream twice gives back the data (the keystream
may be longer than the data). -/
theorem zipWith_xor_cancel :
    ∀ (t k : List Nat), t.length ≤ k.length →
      List.zipWith Nat.xor (List.zipWith Nat.xor t k) k = t := by
  intro t
  induction t with
  | nil => intro k _; simp
  | cons a t ih =>
    intro k h
    cases k with
    | nil => simp at h
    | cons b k' =>
      simp only [List.zipWith_cons_cons]
      have hx : Nat.xor (Nat.xor a b) b = a := by
        show (a ^^^ b) ^^^ b = a
        rw [Nat.xor_assoc, Nat.xor_self, Nat.xor_zero]
      rw [hx, ih k' (by simpa using Nat.le_of_succ_le_succ h)]

/-- Length of a zipWith is the minimum of the lengths. -/
theorem length_zipWith_xor (a b : List Nat) :
    (List.zipWith Nat.xor a b).length = min a.length b.length := by
  simp [List.length_zipWith]

/-- CFB decryption inverts CFB encryption under the same key and IV. -/
theorem cfb_round_trip (E : List Nat → List Nat → List Nat)
    (hE : ∀ k b, b.length = 16 → (E k b).length = 16) (key : List Nat) :
    ∀ n data prev, data.length ≤ n → prev.length = 16 →
      cfbDec E key prev (cfbEnc E key prev data) = data := by
  intro n
  induction n with
  | zero =>
    intro data prev hn _
    have : data = [] := List.length_eq_zero.mp (Nat.le_zero.mp hn)
    subst this
    rw [cfbEnc_eq, if_pos rfl, cfbDec_eq, if_pos rfl]
  | succ n ih =>
    intro data prev hn hprev
    by_cases hd : data = []
    · subst hd
      rw [cfbEnc_eq, if_pos rfl, cfbDec_eq, if_pos rfl]
    · have hks : (E key prev).length = 16 := hE key prev hprev
      have hdl : 0 < data.length := List.length_pos.mpr hd
      set t := data.take 16 with ht
      set c := List.zipWith Nat.xor t (E key prev) with hc
      have htl : t.length = min 16 data.length := by
        rw [ht, List.length_take]
      have hcl : c.length = min 16 data.length := by
        rw [hc, length_zipWith_xor, hks, htl]
        exact Nat.min_eq_left (Nat.min_le_left 16 data.length)
      have henc : cfbEnc E key prev data =
          c ++ cfbEnc E key c (data.drop 16) := by
        rw [cfbEnc_eq, if_neg hd]
      by_cases h16 : 16 ≤ data.length
      · -- full first segment
        have hcl16 : c.length = 16 := by
          rw [hcl]; exact Nat.min_eq_left h16
        have htl16 : t.length = 16 := by
          rw [htl]; exact Nat.min_eq_left h16
        have htake : (c ++ cfbEnc E key c (data.drop 16)).take 16 = c :=
          List.take_left' hcl16
        have hdrop : (c ++ cfbEnc E key c (data.drop 16)).drop 16 =
            cfbEnc E key c (data.drop 16) := List.drop_left' hcl16
        have hne : c ++ cfbEnc E key c (data.drop 16) ≠ [] := by
          intro habs
          have := congrArg List.length habs
          simp only [List.length_append, hcl16, List.length_nil] at this
          omega
        rw [henc, cfbDec_eq, if_neg hne, htake, hdrop]
        have hcanc : List.zipWith Nat.xor c (E key prev) = t := by
          rw [hc]
          exact zipWith_xor_cancel t (E key prev) (by omega)
        rw [hcanc, ih (data.drop 16) c
            (by simp only [List.length_drop]; omega) hcl16]
        exact List.take_append_drop 16 data
      · -- short final segment: the recursion ends immediately
        have hdrop16 : data.drop 16 = [] :=
          List.drop_eq_nil_of_le (by omega)
        have henc' : cfbEnc E key prev data = c := by
          rw [henc, hdrop16, cfbEnc_eq, if_pos rfl, List.append_nil]
        have hcl' : c.length = data.length := by
          rw [hcl]; exact Nat.min_eq_right (by omega)
        have hteq : t = data := by
          rw [ht]; exact List.take_of_length_le (by omega)
        have htl' : t.length = data.length := by rw [hteq]
        have hne : c ≠ [] := by
          intro habs
          rw [habs] at hcl'
          simp only [List.length_nil] at hcl'
          omega
        rw [henc', cfbDec_eq, if_neg hne,
          List.take_of_length_le (show c.length ≤ 16 by omega),
          List.drop_eq_nil_of_le (show c.length ≤ 16 by omega),
          cfbDec_eq, if_pos rfl, List.append_nil, hc,
          zipWith_xor_cancel t (E key prev) (by omega), hteq]

/-- CFB decryption preserves the input length: it returns one output byte
per ciphertext byte, for any key. -/
theorem cfbDec_length (E : List Nat → List Nat → List Nat)
    (hE : ∀ k b, b.length = 16 → (E k b).length = 16) (key : List Nat) :
    ∀ n data prev, data.length ≤ n → prev.length = 16 →
      (cfbDec E key prev data).length = data.length := by
  intro n
  induction n with
  | zero =>
    intro data prev hn _
    have : data = [] := List.length_eq_zero.mp (Nat.le_zero.mp hn)
    subst this
    rw [cfbDec_eq, if_pos rfl]
  | succ n ih =>
    intro data prev hn hprev
    by_cases hd : data = []
    · subst hd; rw [cfbDec_eq, if_pos rfl]
    · have hks : (E key prev).length = 16 := hE key prev hprev
      have hdl : 0 < data.length := List.length_pos.mpr hd
      rw [cfbDec_eq, if_neg hd]
      simp only [List.length_append, length_zipWith_xor, List.length_take,
        hks]
      by_cases h16 : 16 ≤ data.length
      · have := ih (data.drop 16) (data.take 16)
          (by simp only [List.length_drop]; omega)
          (by simp only [List.length_take]; omega)
        rw [this]
        simp only [List.length_drop]
        omega
      · rw [List.drop_eq_nil_of_le (by omega), cfbDec_eq, if_pos rfl]
        simp only [List.length_nil]
        omega

/-- CBC decryption inverts CBC encryption under the same key and IV, for
data whose length is a multiple of the block size. -/
theorem cbc_round_trip (E D : List Nat → List Nat → List Nat)
    (hED : ∀ k b, b.length = 16 → D k (E k b) = b)
    (hE : ∀ k b, b.length = 16 → (E k b).length = 16) (key : List Nat) :
    ∀ n data prev, data.length ≤ n → data.length % 16 = 0 →
      prev.length = 16 →
      cbcDec D key prev (cbcEnc E key prev data) = data := by
  intro n
  induction n with
  | zero =>
    intro data prev hn _ _
    have : data = [] := List.length_eq_zero.mp (Nat.le_zero.mp hn)
    subst this
    simp [cbcEnc, cbcDec]
  | succ n ih =>
    intro data prev hn hmod hprev
    by_cases hd : data = []
    · subst hd; simp [cbcEnc, cbcDec]
    · have hdl : 0 < data.length := List.length_pos.mpr hd
      have h16 : 16 ≤ data.length := by omega
      set t := data.take 16 with ht
      have htl : t.length = 16 := by
        rw [ht, List.length_take]; exact Nat.min_eq_left h16
      set x := List.zipWith Nat.xor t prev with hx
      have hxl : x.length = 16 := by
        rw [hx, length_zipWith_xor, htl, hprev]; exact Nat.min_self 16
      set c := E key x with hc
      have hcl : c.length = 16 := hE key x hxl
      have henc : cbcEnc E key prev data =
          c ++ cbcEnc E key c (data.drop 16) := by
        rw [cbcEnc, dif_neg hd, hc, hx, ht]
      have hne : c ++ cbcEnc E key c (data.drop 16) ≠ [] := by
        intro habs
        have := congrArg List.length habs
        simp only [List.length_append, hcl, List.length_nil] at this
        omega
      have hDc : D key c = x := by rw [hc]; exact hED key x hxl
      rw [henc, cbcDec, dif_neg hne, List.take_left' hcl,
        List.drop_left' hcl, hDc, hx, zipWith_xor_cancel t prev (by omega),
        ih (data.drop 16) c (by simp only [List.length_drop]; omega)
          (by simp only [List.length_drop]; omega) hcl, ht]
      exact List.take_append_drop 16 data

/-- `padder().update(data) + padder().finalize()` on a single padder object
is exactly the PKCS7 padding of `data`. -/
theorem padderSeq_eq_pad (data : List Nat) :
    (padderUpdate [] data).2 ++ padderFinalize (padderUpdate [] data).1 =
      pkcs7Pad data := by
  unfold padderUpdate padderFinalize pkcs7Pad
  simp only [List.nil_append]
  have hlen : (data.drop (data.length / 16 * 16)).length =
      data.length % 16 := by
    simp only [List.length_drop]
    omega
  rw [hlen, ← List.append_assoc, List.take_append_drop]

/-- The padded data's length is the next multiple of 16. -/
theorem pkcs7Pad_length (data : List Nat) :
    (pkcs7Pad data).length = data.length + (16 - data.length % 16) := by
  simp [pkcs7Pad]

/-- The padded data's length is a multiple of 16. -/
theorem pkcs7Pad_length_mod (data : List Nat) :
    (pkcs7Pad data).length % 16 = 0 := by
  rw [pkcs7Pad_length]
  omega

/-- `unpadder().update + finalize()` on a single unpadder object inverts
PKCS7 padding. -/
theorem unpadSeq_pad (data : List Nat) :
    unpadSeq (pkcs7Pad data) = some data := by
  have hm : data.length % 16 < 16 := Nat.mod_lt _ (by omega)
  have hqm : 16 * (data.length / 16) + data.length % 16 = data.length :=
    Nat.div_add_mod data.length 16
  have hPlen : (pkcs7Pad data).length = 16 * (data.length / 16) + 16 := by
    rw [pkcs7Pad_length]; omega
  have hfin : ((pkcs7Pad data).length / 16 - 1) * 16 =
      data.length / 16 * 16 := by
    rw [hPlen]; omega
  have hq16 : data.length / 16 * 16 ≤ data.length := by omega
  have hfrontlen : (data.drop (data.length / 16 * 16)).length =
      data.length % 16 := by
    simp only [List.length_drop]; omega
  have hbuf : (pkcs7Pad data).drop (data.length / 16 * 16) =
      data.drop (data.length / 16 * 16) ++
        List.replicate (16 - data.length % 16) (16 - data.length % 16) := by
    unfold pkcs7Pad
    rw [List.drop_append_eq_append_drop, Nat.sub_eq_zero_of_le hq16,
      List.drop_zero]
  have hbuflen : ((pkcs7Pad data).drop (data.length / 16 * 16)).length =
      16 := by
    rw [hbuf]
    simp only [List.length_append, List.length_replicate, hfrontlen]
    omega
  have hlast : ((pkcs7Pad data).drop (data.length / 16 * 16)).getLast? =
      some (16 - data.length % 16) := by
    rw [hbuf, List.getLast?_append_of_ne_nil]
    · rw [List.getLast?_replicate, if_neg (by omega : ¬(16 - data.length % 16 = 0))]
    · intro habs
      have := congrArg List.length habs
      simp only [List.length_replicate, List.length_nil] at this
      omega
  have hdropbuf : ((pkcs7Pad data).drop (data.length / 16 * 16)).drop
        (16 - (16 - data.length % 16)) =
      List.replicate (16 - data.length % 16) (16 - data.length % 16) := by
    rw [hbuf, (by omega : 16 - (16 - data.length % 16) = data.length % 16),
      List.drop_left' hfrontlen]
  have htakebuf : ((pkcs7Pad data).drop (data.length / 16 * 16)).take
        (16 - (16 - data.length % 16)) =
      data.drop (data.length / 16 * 16) := by
    rw [hbuf, (by omega : 16 - (16 - data.length % 16) = data.length % 16),
      List.take_left' hfrontlen]
  have hfinz : unpadderFinalize
        ((pkcs7Pad data).drop (data.length / 16 * 16)) =
      some (data.drop (data.length / 16 * 16)) := by
    simp only [unpadderFinalize]
    rw [hbuflen, if_pos rfl, hlast]
    simp only [Option.getD_some]
    rw [hdropbuf, htakebuf, if_pos]
    refine ⟨by omega, by omega, ?_⟩
    simp [List.all_eq_true, List.mem_replicate]
  calc unpadSeq (pkcs7Pad data)
      = (unpadderFinalize ((pkcs7Pad data).drop (data.length / 16 * 16))).map
          (fun t => (pkcs7Pad data).take (data.length / 16 * 16) ++ t) := by
        simp only [unpadSeq, unpadderUpdate, List.nil_append, hfin]
    _ = some ((pkcs7Pad data).take (data.length / 16 * 16) ++
          data.drop (data.length / 16 * 16)) := by
        rw [hfinz]; rfl
    _ = some data := by
        have htake : (pkcs7Pad data).take (data.length / 16 * 16) =
            data.take (data.length / 16 * 16) := by
          unfold pkcs7Pad
          rw [List.take_append_eq_append_take, Nat.sub_eq_zero_of_le hq16,
            List.take_zero, List.append_nil]
        rw [htake, List.take_append_drop]

/-- The loop preserves a 32-byte accumulator when the PRF output is always
32 bytes. -/
theorem pbkdf2Loop_length (prf : List Nat → List Nat → List Nat)
    (hprf : ∀ k d, (prf k d).length = 32) (pw : List Nat) :
    ∀ n u acc, acc.length = 32 →
      (pbkdf2Loop prf pw n u acc).length = 32 := by
  intro n
  induction n with
  | zero => intro u acc h; exact h
  | succ n ih =>
    intro u acc h
    simp only [pbkdf2Loop]
    apply ih
    rw [length_zipWith_xor, h, hprf]
    exact Nat.min_self 32

/-- `pbkdf2 _ _ _ _ 32` always returns exactly 32 bytes when the PRF
output is 32 bytes. -/
theorem pbkdf2_length_32 (prf : List Nat → List Nat → List Nat)
    (hprf : ∀ k d, (prf k d).length = 32) (pw salt : List Nat) (c : Nat) :
    (pbkdf2 prf pw salt c 32).length = 32 := by
  have hT : (pbkdf2T prf pw salt c 1).length = 32 :=
    pbkdf2Loop_length prf hprf pw _ _ _ (hprf _ _)
  have h1 : List.range ((32 + 31) / 32) = [0] := by decide
  simp only [pbkdf2, h1, List.map_cons, List.map_nil, List.flatten_cons,
    List.flatten_nil, List.append_nil, Nat.zero_add, List.length_take, hT]
  exact Nat.min_self 32

/-- Splitting a 16-16-rest concatenation the way `decrypt_data` does. -/
theorem append3_take_drop (a b c : List Nat)
    (ha : a.length = 16) (hb : b.length = 16) :
    (a ++ b ++ c).take 16 = a ∧ ((a ++ b ++ c).drop 16).take 16 = b ∧
      (a ++ b ++ c).drop 32 = c := by
  rw [List.append_assoc]
  refine ⟨List.take_left' ha, ?_, ?_⟩
  · rw [List.drop_left' ha, List.take_left' hb]
  · rw [show (32 : Nat) = 16 + 16 from rfl, ← List.drop_drop,
      List.drop_left' ha, List.drop_left' hb]

/-- `int.from_bytes` inverts `to_bytes(4, 'big')` below `2^32`. -/
theorem readBe32_be32 (n : Nat) (rest : List Nat) (h : n < 4294967296) :
    readBe32 (be32 n ++ rest) = n := by
  simp only [readBe32, be32, List.cons_append, List.nil_append,
    List.take_succ_cons, List.take_zero, List.foldl_cons, List.foldl_nil]
  omega

/-- Parsing a saved durga container returns the JSON header and the
encrypted data. -/
theorem durga_parse_save (p : Prims) (text password : List Nat)
    (rk? : Option (List Nat)) (created salt iv : List Nat)
    (hsz : (recoveryInfoBytes rk? created).length < 4294967296) :
    durga_parse (durga_save_encrypted_file p text password rk? created
        salt iv) =
      (recoveryInfoBytes rk? created,
       durga_encrypt_data p text password salt iv) := by
  have h4 : (be32 (recoveryInfoBytes rk? created).length).length = 4 := by
    simp [be32]
  unfold durga_parse durga_save_encrypted_file
  rw [List.append_assoc, readBe32_be32 _ _ hsz, List.drop_left' h4,
    List.take_left' rfl, List.drop_left' rfl]

/-- A list always leads with itself. -/
theorem leadsWith_self_append (m l : List Nat) :
    leadsWith m (m ++ l) = true := by
  induction m with
  | nil => rfl
  | cons a m ih => simp [leadsWith, ih]

/-- One-step unfolding of `afterMarker`. -/
theorem afterMarker_cons (m : List Nat) (a : Nat) (rest : List Nat) :
    afterMarker m (a :: rest) =
      if leadsWith m (a :: rest) then (a :: rest).drop m.length
      else afterMarker m rest := rfl

/-- `afterMarker` returns the tail after an exact occurrence at the head. -/
theorem afterMarker_append_self (m l : List Nat) (hm : m ≠ []) :
    afterMarker m (m ++ l) = l := by
  cases m with
  | nil => exact absurd rfl hm
  | cons a m' =>
    rw [List.cons_append, afterMarker_cons, ← List.cons_append,
      if_pos (leadsWith_self_append (a :: m') l)]
    exact List.drop_left (a :: m') l

/-- `takeWhile (≠ 34)` of `rk ++ 34 :: tail` is `rk` when `rk` contains no
quote byte. -/
theorem takeWhile_ne_quote (rk tail : List Nat) (hq : (34 : Nat) ∉ rk) :
    (rk ++ 34 :: tail).takeWhile (fun b => b ≠ 34) = rk := by
  induction rk with
  | nil => simp [List.takeWhile_cons]
  | cons a rk ih =>
    have ha : a ≠ 34 := fun h => hq (h ▸ List.mem_cons_self a rk)
    simp only [List.cons_append, List.takeWhile_cons, decide_eq_true_eq]
    rw [if_pos ha, ih (fun hx => hq (List.mem_cons_of_mem a hx))]

/-- Extraction of the recovery key from the serialized JSON header: for
headers produced by `save_encrypted_file` with a quote-free key, it is the
stored key itself. -/
theorem extract_of_info (rk created : List Nat) (hq : (34 : Nat) ∉ rk) :
    extractRecoveryKey (recoveryInfoBytes (some rk) created) = rk := by
  have hinfo : recoveryInfoBytes (some rk) created =
      123 :: (rkMarker ++ (rk ++ (34 :: (jsonMid ++ (created ++ [125]))))) := by
    simp [recoveryInfoBytes, jsonKeyPart, jsonValue, jsonMid, rkMarker]
  have hlead : ¬(leadsWith rkMarker
      (123 :: (rkMarker ++ (rk ++ (34 :: (jsonMid ++ (created ++ [125]))))))
        = true) := by
    simp [rkMarker, leadsWith]
  unfold extractRecoveryKey
  rw [hinfo, afterMarker_cons, if_neg hlead,
    afterMarker_append_self rkMarker _ (by simp [rkMarker])]
  exact takeWhile_ne_quote rk (jsonMid ++ (created ++ [125])) hq

/-- C1: Password round trip — for every plaintext byte sequence, password,
and random salt/IV, decrypting what was encrypted under the same password
returns exactly the plaintext, in both the durga.py CFB variant
(`decrypt_data (encrypt_data data pw) pw = data`) and the passward.py CBC
variant (`decrypt_data (encrypt_data data key).1 key iv = data` for the
key derived from the password). -/
theorem C1_password_round_trip (p : Prims)
    (hED : ∀ k b, b.length = 16 → p.aesDec k (p.aesEnc k b) = b)
    (hE : ∀ k b, b.length = 16 → (p.aesEnc k b).length = 16)
    (data password salt iv : List Nat)
    (hsalt : salt.length = 16) (hiv : iv.length = 16) :
    durga_decrypt_data p (durga_encrypt_data p data password salt iv)
        password = data ∧
    passward_decrypt_data p.aesDec
        (passward_encrypt_data p.aesEnc data (p.kdf password salt) iv).1
        (p.kdf password salt) iv = some data := by
  constructor
  · obtain ⟨h1, h2, h3⟩ := append3_take_drop salt iv
      (cfbEnc p.aesEnc (p.kdf password salt) iv data) hsalt hiv
    unfold durga_decrypt_data durga_encrypt_data
    rw [h1, h2, h3]
    exact cfb_round_trip p.aesEnc hE (p.kdf password salt) data.length
      data iv (le_refl _) hiv
  · show unpadSeq (cbcDec p.aesDec (p.kdf password salt) iv
        (cbcEnc p.aesEnc (p.kdf password salt) iv
          ((padderUpdate [] data).2 ++
            padderFinalize (padderUpdate [] data).1))) = some data
    rw [padderSeq_eq_pad,
      cbc_round_trip p.aesEnc p.aesDec hED hE (p.kdf password salt)
        (pkcs7Pad data).length (pkcs7Pad data) iv (le_refl _)
        (pkcs7Pad_length_mod data) hiv]
    exact unpadSeq_pad data

/-- Witness for C1 at concrete inputs (identity block cipher). -/
theorem C1_password_round_trip_witness :
    (∀ k b, b.length = 16 → idPrims.aesDec k (idPrims.aesEnc k b) = b) ∧
    (∀ k b, b.length = 16 → (idPrims.aesEnc k b).length = 16) ∧
    (List.replicate 16 0 : List Nat).length = 16 ∧
    (durga_decrypt_data idPrims
        (durga_encrypt_data idPrims [65] [112] (List.replicate 16 0)
          (List.replicate 16 0)) [112] = [65] ∧
      passward_decrypt_data idPrims.aesDec
        (passward_encrypt_data idPrims.aesEnc [65]
          (idPrims.kdf [112] (List.replicate 16 0))
          (List.replicate 16 0)).1
        (idPrims.kdf [112] (List.replicate 16 0)) (List.replicate 16 0) =
        some [65]) :=
  ⟨fun _ _ _ => rfl, fun _ _ h => h, by simp,
   C1_password_round_trip idPrims (fun _ _ _ => rfl) (fun _ _ h => h)
     [65] [112] (List.replicate 16 0) (List.replicate 16 0) (by simp)
     (by simp)⟩

/-- C2 (code bug): the recovery round trip never holds.  In passward.py
the unwrap step calls `finalize()` on a *fresh* unpadder whose buffer is
empty, so it raises `ValueError` for every input — the recovery branch
of `decrypt_file` returns an error for all containers and all recovery
keys, the correct one included.  In durga.py the recovery branch decrypts
with the *failed password* (not with anything derived from the recovery
key), so it can never succeed where the password attempt failed:
`open_encrypted_file` never ends in the "Recovery Successful" path. -/
theorem C2_recovery_round_trip_broken :
    (∀ (p : Prims) (s : PSeal) (recovery_key : List Nat),
        passward_decrypt_file_recovery p s recovery_key = none) ∧
    (∀ (p : Prims) (fileBytes password : List Nat)
        (tryRecovery recoveryOk : Bool) (recoveryInput : List Nat)
        (newPasswordOk : Bool) (newPassword t : List Nat),
        durga_open_encrypted_file p fileBytes password tryRecovery
          recoveryOk recoveryInput newPasswordOk newPassword ≠
            DOpen.okRecovery t) := by
  constructor
  · intro p s recovery_key
    rfl
  · intro p fb pw tr rOk ri npOk np t habs
    simp only [durga_open_encrypted_file] at habs
    split at habs
    · simp at habs
    · split at habs
      · split at habs
        · split at habs
          · simp at habs
          · simp at habs
        · simp at habs
      · simp at habs

/-- C3 (code bug): durga.py writes the recovery key in the *plaintext*
JSON header of the container: the recovery-key bytes occur verbatim as an
infix of the serialized file, for every seal. -/
theorem C3_recovery_secret_in_container (p : Prims)
    (text password recovery_key created salt iv : List Nat) :
    ∃ s t, s ++ recovery_key ++ t =
      durga_save_encrypted_file p text password (some recovery_key)
        created salt iv := by
  refine ⟨be32 (recoveryInfoBytes (some recovery_key) created).length ++
      jsonKeyPart ++ [34],
    [34] ++ jsonMid ++ created ++ [125] ++
      durga_encrypt_data p text password salt iv, ?_⟩
  simp [durga_save_encrypted_file, recoveryInfoBytes, jsonValue]

/-- C4 (code bug): opening a sealed container with a *wrong* password does
not fail with a typed `WrongCredential` error — the CFB layer is total and
the only check is the caller's UTF-8 decode, so for this container the
wrong password `"q"` silently yields the byte string `[64]` (`"@"`), which
differs from the sealed plaintext `[65]` (`"A"`). -/
theorem C4_wrong_password_returns_garbage :
    durga_open_encrypted_file cPrims sealedAP [113] false false [] false []
        = DOpen.okPassword [64] ∧
      ([113] : List Nat) ≠ [112] ∧ ([64] : List Nat) ≠ [65] :=
  ⟨by decide, by decide, by decide⟩

/-- C5 (code bug): flipping the low bit of the single `ContentCiphertext`
byte of `sealedAP` (its last byte, `65 → 64`) and opening with the
*correct* password silently returns the corrupted plaintext `[64]` instead
of failing with `WrongCredential` or `MalformedContainer`. -/
theorem C5_tamper_returns_corrupted_plaintext :
    durga_open_encrypted_file cPrims (sealedAP.dropLast ++ [64]) [112]
        false false [] false [] = DOpen.okPassword [64] ∧
      ([64] : List Nat) ≠ [65] :=
  ⟨by decide, by decide⟩

/-- C6 counterexample: the wrap step does *not* use an IV distinct from
the content IV — at a concrete seal, the IV handed to the wrap cipher
equals the content IV (source line 84 passes `modes.CBC(iv)`). -/
theorem C6_wrap_iv_equals_content_iv :
    (passward_encrypt_file cPrims [65] [112] (List.replicate 16 2) [97]
        (List.replicate 16 3) (List.replicate 16 4)).wrap_iv =
      (passward_encrypt_file cPrims [65] [112] (List.replicate 16 2) [97]
        (List.replicate 16 3) (List.replicate 16 4)).iv := rfl

/-- C6 amended: the wrap derives the recovery key from the independently
generated `recovery_salt` (persisted as given), but it encrypts the padded
32-byte content key under the *content* IV — no separate wrap IV exists —
and unwrapping with that same content IV recovers the content key. -/
theorem C6_wrap_amended (p : Prims)
    (hED : ∀ k b, b.length = 16 → p.aesDec k (p.aesEnc k b) = b)
    (hE : ∀ k b, b.length = 16 → (p.aesEnc k b).length = 16)
    (hkdf : ∀ pw s, (p.kdf pw s).length = 32)
    (data password salt recovery_key recovery_salt iv : List Nat)
    (hiv : iv.length = 16) :
    (passward_encrypt_file p data password salt recovery_key recovery_salt
        iv).recovery_salt = recovery_salt ∧
    (passward_encrypt_file p data password salt recovery_key recovery_salt
        iv).wrap_iv =
      (passward_encrypt_file p data password salt recovery_key
        recovery_salt iv).iv ∧
    unpadSeq (cbcDec p.aesDec (p.kdf recovery_key recovery_salt) iv
        (passward_encrypt_file p data password salt recovery_key
          recovery_salt iv).recovery_encrypted_key) =
      some (p.kdf password salt) := by
  refine ⟨rfl, rfl, ?_⟩
  have h32 := hkdf password salt
  have hpk : (padderUpdate [] (p.kdf password salt)).2 ++
      padderFinalize [] = pkcs7Pad (p.kdf password salt) := by
    unfold padderUpdate padderFinalize pkcs7Pad
    simp only [List.nil_append, List.length_nil, Nat.sub_zero, h32]
    norm_num
    omega
  have hproj : (passward_encrypt_file p data password salt recovery_key
        recovery_salt iv).recovery_encrypted_key =
      cbcEnc p.aesEnc (p.kdf recovery_key recovery_salt) iv
        (pkcs7Pad (p.kdf password salt)) := by
    show cbcEnc p.aesEnc (p.kdf recovery_key recovery_salt) iv
        ((padderUpdate [] (p.kdf password salt)).2 ++ padderFinalize []) =
      _
    rw [hpk]
  rw [hproj,
    cbc_round_trip p.aesEnc p.aesDec hED hE
      (p.kdf recovery_key recovery_salt)
      (pkcs7Pad (p.kdf password salt)).length
      (pkcs7Pad (p.kdf password salt)) iv (le_refl _)
      (pkcs7Pad_length_mod _) hiv]
  exact unpadSeq_pad _

/-- Witness for the amended C6 at concrete inputs. -/
theorem C6_wrap_amended_witness :
    (∀ k b, b.length = 16 → idPrims.aesDec k (idPrims.aesEnc k b) = b) ∧
    (∀ pw s, (idPrims.kdf pw s).length = 32) ∧
    (List.replicate 16 0 : List Nat).length = 16 ∧
    ((passward_encrypt_file idPrims [65] [112] (List.replicate 16 1) [97]
        (List.replicate 16 2) (List.replicate 16 0)).recovery_salt =
        List.replicate 16 2 ∧
      (passward_encrypt_file idPrims [65] [112] (List.replicate 16 1) [97]
        (List.replicate 16 2) (List.replicate 16 0)).wrap_iv =
        (passward_encrypt_file idPrims [65] [112] (List.replicate 16 1)
          [97] (List.replicate 16 2) (List.replicate 16 0)).iv ∧
      unpadSeq (cbcDec idPrims.aesDec
          (idPrims.kdf [97] (List.replicate 16 2)) (List.replicate 16 0)
          (passward_encrypt_file idPrims [65] [112] (List.replicate 16 1)
            [97] (List.replicate 16 2)
            (List.replicate 16 0)).recovery_encrypted_key) =
        some (idPrims.kdf [112] (List.replicate 16 1))) :=
  ⟨fun _ _ _ => rfl, fun _ _ => by simp [idPrims], by simp,
   C6_wrap_amended idPrims (fun _ _ _ => rfl) (fun _ _ h => h)
     (fun _ _ => by simp [idPrims]) [65] [112] (List.replicate 16 1) [97]
     (List.replicate 16 2) (List.replicate 16 0) (by simp)⟩

/-- C7: both `generate_key` variants are deterministic functions of
(password, salt) — equal arguments give equal results — and their output
is exactly 32 bytes (given the 32-byte PRF of PBKDF2-HMAC-SHA256). -/
theorem C7_generate_key_deterministic_32
    (prf : List Nat → List Nat → List Nat)
    (hprf : ∀ k d, (prf k d).length = 32)
    (password password2 salt salt2 : List Nat)
    (hsalt : salt.length = 16) (hpw : password = password2)
    (hs : salt = salt2) :
    durga_generate_key prf password salt =
        durga_generate_key prf password2 salt2 ∧
      passward_generate_key prf password salt =
        passward_generate_key prf password2 salt2 ∧
      (durga_generate_key prf password salt).length = 32 ∧
      (passward_generate_key prf password salt).length = 32 := by
  subst hpw
  subst hs
  exact ⟨rfl, rfl, pbkdf2_length_32 prf hprf password salt 100000,
    pbkdf2_length_32 prf hprf password salt 390000⟩

/-- Witness for C7 at concrete inputs (constant PRF). -/
theorem C7_generate_key_deterministic_32_witness :
    (∀ k d, (constPrf k d).length = 32) ∧
    (List.replicate 16 0 : List Nat).length = 16 ∧
    (durga_generate_key constPrf [97] (List.replicate 16 0) =
        durga_generate_key constPrf [97] (List.replicate 16 0) ∧
      passward_generate_key constPrf [97] (List.replicate 16 0) =
        passward_generate_key constPrf [97] (List.replicate 16 0) ∧
      (durga_generate_key constPrf [97] (List.replicate 16 0)).length =
        32 ∧
      (passward_generate_key constPrf [97] (List.replicate 16 0)).length =
        32) :=
  ⟨fun _ _ => by simp [constPrf], by simp,
   C7_generate_key_deterministic_32 constPrf
     (fun _ _ => by simp [constPrf]) [97] [97] (List.replicate 16 0)
     (List.replicate 16 0) (by simp) rfl rfl⟩

/-- C8 (code bug): the operations are *not* functions of their explicit
arguments only — `set_password` stores the password and the fresh recovery
key on the long-lived editor object, and `save_encrypted_file` (which
takes no credential argument) later reads both back from that object. -/
theorem C8_credentials_stored_on_long_lived_object (p : Prims)
    (app : TextEditorApp) (ok : Bool)
    (password freshRecovery created salt iv : List Nat)
    (hok : ok = true) (hpw : password ≠ []) :
    (durga_set_password app ok password freshRecovery).current_password =
        some password ∧
      (durga_set_password app ok password freshRecovery).recovery_key =
        some freshRecovery ∧
      durga_save_op p (durga_set_password app ok password freshRecovery)
          created salt iv =
        some (durga_save_encrypted_file p app.text password
          (some freshRecovery) created salt iv) := by
  subst hok
  simp [durga_set_password, hpw, durga_save_op]

/-- Witness for C8 at concrete inputs. -/
theorem C8_credentials_stored_witness :
    (true = true) ∧ (([112] : List Nat) ≠ []) ∧
    ((durga_set_password ⟨none, none, [65]⟩ true [112]
        [97]).current_password = some [112] ∧
      (durga_set_password ⟨none, none, [65]⟩ true [112]
        [97]).recovery_key = some [97] ∧
      durga_save_op idPrims
          (durga_set_password ⟨none, none, [65]⟩ true [112] [97]) [49]
          (List.replicate 16 0) (List.replicate 16 0) =
        some (durga_save_encrypted_file idPrims
          (TextEditorApp.mk none none [65]).text [112] (some [97]) [49]
          (List.replicate 16 0) (List.replicate 16 0))) :=
  ⟨rfl, by decide,
   C8_credentials_stored_on_long_lived_object idPrims ⟨none, none, [65]⟩
     true [112] [97] [49] (List.replicate 16 0) (List.replicate 16 0) rfl
     (by decide)⟩

/-- C9: in durga.py, once the password attempt has failed, the recovery
path accepts a candidate secret iff it is string-equal to the
`recovery_key` field read from the container's plaintext header (for any
primitives `p` — no key derivation or decryption participates in the
acceptance decision; the container bytes alone determine the accepted
secret). -/
theorem C9_recovery_acceptance_is_string_equality (p : Prims)
    (text password rk created salt iv password2 cand newPassword :
      List Nat) (newPasswordOk : Bool)
    (hq : (34 : Nat) ∉ rk) (hrk : rk ≠ [])
    (hsz : (recoveryInfoBytes (some rk) created).length < 4294967296)
    (hfail : utf8Valid (durga_decrypt_data p
        (durga_parse (durga_save_encrypted_file p text password (some rk)
          created salt iv)).2 password2) = false) :
    (durga_open_encrypted_file p
        (durga_save_encrypted_file p text password (some rk) created salt
          iv) password2 true true cand newPasswordOk newPassword =
      DOpen.recoveryFailed) ↔ cand ≠ rk := by
  have hparse := durga_parse_save p text password (some rk) created salt
    iv hsz
  have hstored : extractRecoveryKey
      (durga_parse (durga_save_encrypted_file p text password (some rk)
        created salt iv)).1 = rk := by
    rw [hparse]
    exact extract_of_info rk created hq
  simp only [durga_open_encrypted_file, hstored, hfail]
  by_cases hc : cand = rk
  · subst hc
    simp_all
    split <;> simp
  · simp_all

/-- Witness for C9 at concrete inputs (`cPrims9`; the wrong password
`"q"` makes the password path fail UTF-8 decoding, the candidate `[98]`
differs from the stored key `"aa"`). -/
theorem C9_recovery_acceptance_witness :
    ((34 : Nat) ∉ ([97, 97] : List Nat)) ∧
    (([97, 97] : List Nat) ≠ []) ∧
    ((recoveryInfoBytes (some [97, 97]) [49]).length < 4294967296) ∧
    (utf8Valid (durga_decrypt_data cPrims9
        (durga_parse (durga_save_encrypted_file cPrims9 [65] [112]
          (some [97, 97]) [49] (List.replicate 16 0)
          (List.replicate 16 0))).2 [113]) = false) ∧
    ((durga_open_encrypted_file cPrims9
        (durga_save_encrypted_file cPrims9 [65] [112] (some [97, 97]) [49]
          (List.replicate 16 0) (List.replicate 16 0)) [113] true true
        [98] false [] = DOpen.recoveryFailed) ↔
      ([98] : List Nat) ≠ [97, 97]) :=
  ⟨by decide, by decide, by decide, by decide,
   C9_recovery_acceptance_is_string_equality cPrims9 [65] [112] [97, 97]
     [49] (List.replicate 16 0) (List.replicate 16 0) [113] [98] []
     false (by decide) (by decide) (by decide) (by decide)⟩

/-- C10: in the CFB variants (durga.py and AI.py), `decrypt_data` is total
on inputs of length at least 32: for *every* password it returns a byte
string, of length exactly `len - 32`, without raising — no wrong-key
detection happens at this layer. -/
theorem C10_cfb_decrypt_total (p : Prims)
    (hE : ∀ k b, b.length = 16 → (p.aesEnc k b).length = 16)
    (password encrypted_data : List Nat)
    (h32 : 32 ≤ encrypted_data.length) :
    (durga_decrypt_data p encrypted_data password).length =
        encrypted_data.length - 32 ∧
      (ai_decrypt_data p encrypted_data password).length =
        encrypted_data.length - 32 := by
  have hiv : ((encrypted_data.drop 16).take 16).length = 16 := by
    rw [List.length_take, List.length_drop]
    exact Nat.min_eq_left (by omega)
  have hlen := cfbDec_length p.aesEnc hE
    (p.kdf password (encrypted_data.take 16))
    (encrypted_data.drop 32).length (encrypted_data.drop 32)
    ((encrypted_data.drop 16).take 16) (le_refl _) hiv
  rw [List.length_drop] at hlen
  exact ⟨hlen, hlen⟩

/-- Witness for C10 at concrete inputs. -/
theorem C10_cfb_decrypt_total_witness :
    (∀ k b, b.length = 16 → (idPrims.aesEnc k b).length = 16) ∧
    (32 ≤ (List.replicate 33 0 : List Nat).length) ∧
    ((durga_decrypt_data idPrims (List.replicate 33 0) [112]).length =
        (List.replicate 33 0 : List Nat).length - 32 ∧
      (ai_decrypt_data idPrims (List.replicate 33 0) [112]).length =
        (List.replicate 33 0 : List Nat).length - 32) :=
  ⟨fun _ _ h => h, by simp,
   C10_cfb_decrypt_total idPrims (fun _ _ h => h) [112]
     (List.replicate 33 0) (by simp)⟩

end TextCraft
